import Mathlib

/-!
Verification of the pacco artifact-registry core (`pacco/classes_file_based.py`
together with its storage clients in `pacco/clients.py`).

Python strings are modelled as `List Char` (`Str`), Python dicts as
association lists built with Python's insert-or-overwrite semantics
(`dictInsert` / `pyDictOf`), and Python exceptions as the `PyErr` error type
of an `Except` result.  Storage is modelled as explicit directory-listing
state: a registry directory is its parameter-schema marker entry plus a list
of wrapper entries, each wrapper carrying its sub-directory listing and the
payload stored under its reserved `bin` child.
-/

/-- Python `str` modelled as a list of characters. -/
abbrev Str := List Char

/-- One key/value pair of an assignment (an entry of a Python `Dict[str, str]`). -/
abbrev StrPair := Str × Str

/-- Python exceptions raised by the code under verification.
`fileNotFound` is `FileNotFoundError`, `fileExists` is `FileExistsError`,
`keyError` is `KeyError` (wrong settings key, and failed dict subscript),
`valueError` is `ValueError` (invalid token format),
`indexError` is `IndexError` (failed list subscript). -/
inductive PyErr
  | fileNotFound
  | fileExists
  | keyError
  | valueError
  | indexError
deriving DecidableEq

instance {e a : Type} [DecidableEq e] [DecidableEq a] : DecidableEq (Except e a) :=
  fun x y =>
  match x, y with
  | Except.ok u, Except.ok v =>
    if h : u = v then isTrue (by rw [h]) else isFalse (by simp [h])
  | Except.error u, Except.error v =>
    if h : u = v then isTrue (by rw [h]) else isFalse (by simp [h])
  | Except.ok _, Except.error _ => isFalse (by simp)
  | Except.error _, Except.ok _ => isFalse (by simp)

/-- Characters matched by the regex class `\w` (ASCII): letters, digits, underscore. -/
def wordChar (c : Char) : Bool :=
  c.isAlphanum || c = '_'

/-- Lexicographic comparison of Python strings (`s <= t` by code points). -/
def strLe : Str → Str → Bool
  | [], _ => true
  | _ :: _, [] => false
  | c :: cs, d :: ds => if c = d then strLe cs ds else decide (c < d)

/-- Stable insertion of a pair into a key-sorted list: the new pair goes after
every pair whose key compares `<=`.  Building block of `sortPairsByKey`. -/
def insertPairByKey (p : StrPair) : List StrPair → List StrPair
  | [] => [p]
  | q :: rest => if strLe q.1 p.1 then q :: insertPairByKey p rest else p :: q :: rest

/-- Python `sorted(d.items(), key=lambda x: x[0])`: stable sort of the pairs by key. -/
def sortPairsByKey (l : List StrPair) : List StrPair :=
  l.foldl (fun acc p => insertPairByKey p acc) []

/-- Stable insertion of a string into a sorted list (building block of `sortStr`). -/
def insertStrLe (s : Str) : List Str → List Str
  | [] => [s]
  | t :: rest => if strLe t s then t :: insertStrLe s rest else s :: t :: rest

/-- Python `sorted(strings)`: stable sort of a list of strings. -/
def sortStr (l : List Str) : List Str :=
  l.foldl (fun acc s => insertStrLe s acc) []

/-- Python `sep.join(parts)`. -/
def joinSep (sep : Str) : List Str → Str
  | [] => []
  | [x] => x
  | x :: y :: rest => x ++ sep ++ joinSep sep (y :: rest)

/-- Python `s.split('=')`: split at every occurrence of `'='`. -/
def splitEq : Str → List Str
  | [] => [[]]
  | c :: rest =>
    if c = '=' then [] :: splitEq rest
    else
      match splitEq rest with
      | [] => [[c]]
      | x :: xs => (c :: x) :: xs

/-- Python `s.split('==')`: split at the leftmost non-overlapping occurrences
of the two-character separator `'=='`. -/
def splitEqEq : Str → List Str
  | [] => [[]]
  | [c] => [[c]]
  | c1 :: c2 :: rest =>
    if c1 = '=' ∧ c2 = '=' then [] :: splitEqEq rest
    else
      match splitEqEq (c2 :: rest) with
      | [] => [[c1]]
      | x :: xs => (c1 :: x) :: xs

/-- Membership of a string in the language of the regex `\w+=\w+`:
a maximal (greedy) `\w+` block, a literal `'='`, then a nonempty `\w` tail. -/
def isKVStr (s : Str) : Bool :=
  match s.drop (s.takeWhile wordChar).length with
  | '=' :: v => !(s.takeWhile wordChar).isEmpty && !v.isEmpty && v.all wordChar
  | _ => false

/-- Membership in the language of `((\w+=\w+)==)*(\w+=\w+)`: splitting on the
separator `'=='`, every segment matches `\w+=\w+`.  This characterises the
language exactly because segments of the language contain no `'=='` and do
not start or end with `'='`, so splitting on `'=='` inverts the join. -/
def inKVLang (s : Str) : Bool :=
  (splitEqEq s).all isKVStr

/-- Truth value of Python `re.match(r"((\w+=\w+)==)*(\w+=\w+)", s)`:
`re.match` is unanchored at the right, so it succeeds exactly when some
prefix of `s` lies in the language of the pattern. -/
def reMatchKV (s : Str) : Bool :=
  s.inits.any inKVLang

/-- The reserved schema-marker prefix `'__params'`
(`PackageRegistryFileBased.__params_prefix`). -/
def paramsMarker : Str := ['_', '_', 'p', 'a', 'r', 'a', 'm', 's']

/-- The directory name `'bin'` reserved for payload storage. -/
def binName : Str := ['b', 'i', 'n']

/-- Embedding of `PackageRegistryFileBased.__serialize_params`:
`'=='.join(['__params'] + sorted(params))`. -/
def serialize_params (params : List Str) : Str :=
  joinSep ['=', '='] (paramsMarker :: sortStr params)

/-- Embedding of `PackageRegistryFileBased.__serialize_assignments`:
sort the pairs by key, join each pair with `'='`, join the result with `'=='`. -/
def serialize_assignments (assignments : List StrPair) : Str :=
  joinSep ['=', '='] ((sortPairsByKey assignments).map (fun p => p.1 ++ '=' :: p.2))

/-- Python dict assignment `m[k] = v`: overwrite in place if the key is
present (keeping its position), otherwise append. -/
def dictInsert : List StrPair → Str → Str → List StrPair
  | [], k, v => [(k, v)]
  | p :: rest, k, v =>
    if p.1 = k then (k, v) :: rest else p :: dictInsert rest k v

/-- Building a Python dict from a list of key/value pairs in order
(duplicate keys: the later value wins, the first position is kept). -/
def pyDictOf (l : List StrPair) : List StrPair :=
  l.foldl (fun m p => dictInsert m p.1 p.2) []

/-- Python dict subscript `m[k]` (first occurrence; `none` models `KeyError`). -/
def dictGet : List StrPair → Str → Option Str
  | [], _ => none
  | p :: rest, k => if p.1 = k then some p.2 else dictGet rest k

/-- Python `k in m` for a dict. -/
def dictHasKey (m : List StrPair) (k : Str) : Bool :=
  m.any (fun p => decide (p.1 = k))

/-- Python `m.values()` for a dict. -/
def dictValues (m : List StrPair) : List Str :=
  m.map (fun p => p.2)

/-- Python set equality `set(xs) == set(ys)` of two lists of strings. -/
def sameSet (xs ys : List Str) : Bool :=
  xs.all (fun x => decide (x ∈ ys)) && ys.all (fun y => decide (y ∈ xs))

/-- Effectful map over a list, stopping at the first raised exception
(the evaluation order of a Python comprehension). -/
def mapExcept (f : a → Except PyErr b) : List a → Except PyErr (List b)
  | [] => Except.ok []
  | x :: xs =>
    match f x with
    | Except.error e => Except.error e
    | Except.ok y =>
      match mapExcept f xs with
      | Except.error e => Except.error e
      | Except.ok ys => Except.ok (y :: ys)

/-- Embedding of `PackageRegistryFileBased.__unserialize_assignments`:
raise `ValueError` unless the unanchored `re.match` succeeds, then build the
dict from `arg.split('=')[0] : arg.split('=')[1]` over `dir_name.split('==')`
(`IndexError` when some segment has no `'='`, from the `[1]` subscript). -/
def unserialize_assignments (dir_name : Str) : Except PyErr (List StrPair) :=
  if reMatchKV dir_name then
    match mapExcept (fun arg =>
        match splitEq arg with
        | k :: v :: _ => Except.ok ((k, v) : StrPair)
        | _ => Except.error PyErr.indexError) (splitEqEq dir_name) with
    | Except.error e => Except.error e
    | Except.ok pairs => Except.ok (pyDictOf pairs)
  else Except.error PyErr.valueError

/-- One wrapper entry of a registry directory (the indirect addressing scheme):
its randomly drawn directory name, the listing of its marker sub-directories,
and the payload bytes stored under its reserved `bin` child (`none` while no
upload has happened, in which case the `bin` child does not exist either). -/
structure BinEntry where
  name : Str
  subs : List Str
  payload : Option (List Nat)
deriving DecidableEq

/-- State of one registry directory.  The schema-marker entry
`serialize_params params` is always present (construction guarantees it, see
`registry_init`); the remaining top-level entries are the wrappers. -/
structure RegState where
  params : List Str
  entries : List BinEntry
deriving DecidableEq

/-- Listing (`client.ls()`) of a registry directory: the schema marker plus
the wrapper names. -/
def lsReg (st : RegState) : List Str :=
  serialize_params st.params :: st.entries.map (fun e => e.name)

/-- Listing of a wrapper directory: its marker sub-directories, plus `bin`
when a payload has been uploaded (`LocalClient` creates `bin` on upload). -/
def subLs (e : BinEntry) : List Str :=
  e.subs ++ (match e.payload with | some _ => [binName] | none => [])

/-- One step of the loop in
`PackageRegistryFileBased.__get_serialized_assignments_to_wrapper_mapping`:
list the wrapper, drop `bin` if present (`list.remove` drops the first
occurrence), and take element `[0]` (`IndexError` when empty). -/
def entryMarker (e : BinEntry) : Except PyErr StrPair :=
  let sub_dirs := subLs e
  let sub_dirs2 := if binName ∈ sub_dirs then sub_dirs.erase binName else sub_dirs
  match sub_dirs2 with
  | [] => Except.error PyErr.indexError
  | s :: _ => Except.ok ((s, e.name) : StrPair)

/-- Embedding of
`PackageRegistryFileBased.__get_serialized_assignments_to_wrapper_mapping`.
The source first removes `serialize_params(self.params)` from the listing
(our state keeps the marker separate, so the removal is by construction),
then builds the dict serialized-assignment-token -> wrapper name. -/
def wrapperMapping (st : RegState) : Except PyErr (List StrPair) :=
  match mapExcept entryMarker st.entries with
  | Except.error e => Except.error e
  | Except.ok pairs => Except.ok (pyDictOf pairs)

/-- Embedding of `PackageRegistryFileBased.list_package_binaries`: decode
every key of the wrapper mapping. -/
def list_package_binaries (st : RegState) : Except PyErr (List (List StrPair)) :=
  match wrapperMapping st with
  | Except.error e => Except.error e
  | Except.ok m => mapExcept (fun p => unserialize_assignments p.1) m

/-- Embedding of `PackageRegistryFileBased.add_package_binary`.  The two
random 10-character draws of `__random_string` are passed in as `r1`, `r2`:
the code draws `r1`, re-draws once (`r2`) if `r1` is a mapping value, and
never re-checks the second draw.  The two `mkdir` calls are merged into one
state update because the second targets the just-created empty wrapper and
cannot fail; the first raises `FileExistsError` when the chosen name is
already a top-level entry (`os.makedirs` without `exist_ok`). -/
def add_package_binary (st : RegState) (assignments : List StrPair) (r1 r2 : Str) :
    Except PyErr RegState :=
  if sameSet (assignments.map (fun p => p.1)) st.params = false then
    Except.error PyErr.keyError
  else
    match wrapperMapping st with
    | Except.error e => Except.error e
    | Except.ok m =>
      if dictHasKey m (serialize_assignments assignments) then
        Except.error PyErr.fileExists
      else
        let new_random_dir_name := if r1 ∈ dictValues m then r2 else r1
        if new_random_dir_name ∈ lsReg st then Except.error PyErr.fileExists
        else Except.ok
          { st with entries :=
              st.entries ++ [⟨new_random_dir_name, [serialize_assignments assignments], none⟩] }

/-- Recursive removal (`client.rmdir(name)` backed by `shutil.rmtree`) of a
top-level wrapper entry: `FileNotFoundError` when absent. -/
def rmdirReg (st : RegState) (name : Str) : Except PyErr RegState :=
  if st.entries.any (fun e => decide (e.name = name)) then
    Except.ok { st with entries := st.entries.eraseP (fun e => decide (e.name = name)) }
  else Except.error PyErr.fileNotFound

/-- Embedding of `PackageRegistryFileBased.remove_package_binary`:
`self.client.rmdir(mapping[serialized])` — the dict subscript raises
`KeyError` when the serialized assignment is not a mapping key. -/
def remove_package_binary (st : RegState) (assignments : List StrPair) :
    Except PyErr RegState :=
  match wrapperMapping st with
  | Except.error e => Except.error e
  | Except.ok m =>
    match dictGet m (serialize_assignments assignments) with
    | none => Except.error PyErr.keyError
    | some w => rmdirReg st w

/-- Embedding of `PackageRegistryFileBased.get_package_binary`: wrong key set
raises `KeyError`, an absent configuration raises `FileNotFoundError`, else
the wrapper entry resolved through the mapping is returned (the package
binary handle scoped to that wrapper; the source recomputes the mapping for
the lookup, which is the same pure value). -/
def get_package_binary (st : RegState) (assignments : List StrPair) :
    Except PyErr BinEntry :=
  if sameSet (assignments.map (fun p => p.1)) st.params = false then
    Except.error PyErr.keyError
  else
    match wrapperMapping st with
    | Except.error e => Except.error e
    | Except.ok m =>
      match dictGet m (serialize_assignments assignments) with
      | none => Except.error PyErr.fileNotFound
      | some w =>
        match st.entries.find? (fun e => decide (e.name = w)) with
        | some e => Except.ok e
        | none => Except.error PyErr.fileNotFound

/-- Python `needle in hay` on strings: substring containment. -/
def containsSub (needle hay : Str) : Bool :=
  hay.tails.any (fun t => needle.isPrefixOf t)

/-- Embedding of `PackageRegistryFileBased.__get_remote_params` over a raw
directory listing: scan the listing, and for every entry containing the
substring `'__params'` take `dir_name.split('==')[1:]` (the last hit wins). -/
def get_remote_params (dirs : List Str) : Option (List Str) :=
  dirs.foldl
    (fun acc dir_name =>
      if containsSub paramsMarker dir_name then some ((splitEqEq dir_name).drop 1) else acc)
    none

/-- Embedding of the `PackageRegistryFileBased.__init__` lifecycle over a raw
directory listing.  Returns the adopted parameter schema and the listing
after construction.  Cases in the source's order: both the caller schema and
the remote marker absent raises `FileNotFoundError`; a remote marker present
is adopted regardless of the caller's input (listing unchanged); otherwise
the caller schema is adopted and its marker entry is created
(`client.mkdir`, which raises `FileExistsError` on an existing name). -/
def registry_init (dirs : List Str) (params : Option (List Str)) :
    Except PyErr (List Str × List Str) :=
  match get_remote_params dirs, params with
  | none, none => Except.error PyErr.fileNotFound
  | some remote_params, _ => Except.ok (remote_params, dirs)
  | none, some p =>
    if serialize_params p ∈ dirs then Except.error PyErr.fileExists
    else Except.ok (p, dirs ++ [serialize_params p])

/-- Modelled from the spec: `reassign_binary` is invoked by the CLI
(`Binary.reassign`, `pacco/cli/command_manager.py` line 454) but its
implementation is not among the source files under verification.  Spec 4.3:
it rewrites the nested marker only (no payload copy), failing `NotFound`
when `old` is absent from the mapping and `AlreadyExists` when `new` is
already used. -/
def reassign_binary (st : RegState) (oldA newA : List StrPair) : Except PyErr RegState :=
  match wrapperMapping st with
  | Except.error e => Except.error e
  | Except.ok m =>
    match dictGet m (serialize_assignments oldA) with
    | none => Except.error PyErr.fileNotFound
    | some w =>
      if dictHasKey m (serialize_assignments newA) then Except.error PyErr.fileExists
      else Except.ok
        { st with entries := st.entries.map (fun e =>
            if e.name = w then
              { e with subs := e.subs.map (fun s =>
                  if s = serialize_assignments oldA then serialize_assignments newA else s) }
            else e) }

/-- Registry state in the normal form produced by the registry operations:
every wrapper holds exactly one marker sub-directory.  A row is
(wrapper name, marker token, payload). -/
def mkReg (ps : List Str) (rows : List (Str × Str × Option (List Nat))) : RegState :=
  ⟨ps, rows.map (fun r => ⟨r.1, [r.2.1], r.2.2⟩)⟩

/-- One entry of the manager's root directory: a registry name together with
the listing of that registry's directory. -/
structure MEntry where
  name : Str
  rdirs : List Str
deriving DecidableEq

/-- State of the manager's root directory. -/
abbrev MState := List MEntry

/-- Embedding of `PackageManagerFileBased.list_package_registries`:
`sorted(self.client.ls())`. -/
def list_package_registries (ms : MState) : List Str :=
  sortStr (ms.map (fun e => e.name))

/-- Embedding of `PackageManagerFileBased.add_package_registry`: an existing
name raises `FileExistsError`; otherwise the registry directory is created
and a registry is constructed inside it with the caller schema
(`registry_init` on the fresh empty listing persists the schema marker). -/
def add_package_registry (ms : MState) (name : Str) (settings_key : List Str) :
    Except PyErr MState :=
  if name ∈ ms.map (fun e => e.name) then Except.error PyErr.fileExists
  else
    match registry_init [] (some settings_key) with
    | Except.error e => Except.error e
    | Except.ok (_, dirs) => Except.ok (ms ++ [⟨name, dirs⟩])

/-- Embedding of `PackageManagerFileBased.remove_package_registry`:
`client.rmdir(name)`, a recursive delete that raises `FileNotFoundError`
when the name is absent. -/
def remove_package_registry (ms : MState) (name : Str) : Except PyErr MState :=
  if ms.any (fun e => decide (e.name = name)) then
    Except.ok (ms.eraseP (fun e => decide (e.name = name)))
  else Except.error PyErr.fileNotFound

/-- Embedding of `PackageManagerFileBased.get_package_registry`: an absent
name raises `FileNotFoundError`; otherwise a registry is constructed on the
stored listing with no caller schema, adopting the remote schema. -/
def get_package_registry (ms : MState) (name : Str) :
    Except PyErr (List Str × List Str) :=
  if name ∈ ms.map (fun e => e.name) then
    match ms.find? (fun e => decide (e.name = name)) with
    | some e => registry_init e.rdirs none
    | none => Except.error PyErr.fileNotFound
  else Except.error PyErr.fileNotFound

/-- Wrapper name drawn first in the double-collision scenario of
`add_package_binary` (a 10-character draw of `__random_string`). -/
def nameA : Str := ['A', 'A', 'A', 'A', 'A', 'A', 'A', 'A', 'A', 'A']

/-- Wrapper name drawn second in the double-collision scenario. -/
def nameB : Str := ['B', 'B', 'B', 'B', 'B', 'B', 'B', 'B', 'B', 'B']

/-- Registry state holding two binaries whose wrapper names are `nameA` and
`nameB`: the scenario in which both random draws collide. -/
def regC10 : RegState :=
  ⟨[['o', 's']],
   [⟨nameA, [serialize_assignments [(['o', 's'], ['a'])]], none⟩,
    ⟨nameB, [serialize_assignments [(['o', 's'], ['b'])]], none⟩]⟩

/-- The wrapper mapping of `regC10`. -/
def mapC10 : List StrPair :=
  [(serialize_assignments [(['o', 's'], ['a'])], nameA),
   (serialize_assignments [(['o', 's'], ['b'])], nameB)]

/-- Well-formed segment for splitting on `'=='`: nonempty, holding no two
consecutive `'='` characters, and not ending in `'='`.  Joining such
segments with `'=='` and re-splitting recovers them exactly. -/
def goodSeg : Str → Bool
  | [] => false
  | [c] => decide (c ≠ '=')
  | c1 :: c2 :: rest => !(decide (c1 = '=') && decide (c2 = '=')) && goodSeg (c2 :: rest)

theorem wordChar_ne_eqchar {c : Char} (h : wordChar c = true) : c ≠ '=' := by
  intro hc
  subst hc
  exact absurd h (by decide)

theorem goodSeg_of_no_eqchar (l : Str) (hne : l ≠ []) (h : ∀ c ∈ l, c ≠ '=') :
    goodSeg l = true := by
  induction l with
  | nil => exact absurd rfl hne
  | cons c rest ih =>
    cases rest with
    | nil =>
      simp only [goodSeg, decide_eq_true_eq]
      exact h c (by simp)
    | cons d rest2 =>
      simp only [goodSeg, Bool.and_eq_true, Bool.not_eq_true']
      refine ⟨?_, ih (by simp) (fun x hx => h x (List.mem_cons_of_mem c hx))⟩
      have hc : c ≠ '=' := h c (by simp)
      simp [hc]

theorem goodSeg_eqchar_cons (v : Str) (hv : v ≠ []) (hve : ∀ c ∈ v, c ≠ '=') :
    goodSeg ('=' :: v) = true := by
  cases v with
  | nil => exact absurd rfl hv
  | cons d rest =>
    simp only [goodSeg, Bool.and_eq_true, Bool.not_eq_true']
    refine ⟨?_, goodSeg_of_no_eqchar _ (by simp) hve⟩
    have hd : d ≠ '=' := hve d (by simp)
    simp [hd]

theorem goodSeg_kv (k v : Str) (hk : k ≠ []) (hv : v ≠ [])
    (hke : ∀ c ∈ k, c ≠ '=') (hve : ∀ c ∈ v, c ≠ '=') :
    goodSeg (k ++ '=' :: v) = true := by
  induction k with
  | nil => exact absurd rfl hk
  | cons c k2 ih =>
    cases k2 with
    | nil =>
      have hc : c ≠ '=' := hke c (by simp)
      simp only [List.cons_append, List.nil_append, goodSeg, Bool.and_eq_true,
        Bool.not_eq_true']
      refine ⟨by simp [hc], goodSeg_eqchar_cons v hv hve⟩
    | cons c2 k3 =>
      have hc : c ≠ '=' := hke c (by simp)
      have ih2 := ih (by simp) (fun x hx => hke x (List.mem_cons_of_mem c hx))
      simp only [List.cons_append, goodSeg, Bool.and_eq_true, Bool.not_eq_true']
      exact ⟨by simp [hc], ih2⟩

theorem goodSeg_cons_elim {c d : Char} {rest2 : Str}
    (hp : goodSeg (c :: d :: rest2) = true) :
    ¬(c = '=' ∧ d = '=') ∧ goodSeg (d :: rest2) = true := by
  simp only [goodSeg, Bool.and_eq_true, Bool.not_eq_true',
    Bool.and_eq_false_imp, decide_eq_true_eq] at hp
  obtain ⟨h1, h2⟩ := hp
  refine ⟨?_, h2⟩
  intro ⟨hc, hd⟩
  rw [hc] at h1
  exact absurd (h1 (by simp)) (by simp [hd])

theorem splitEqEq_step_sep (t : Str) : splitEqEq ('=' :: '=' :: t) = [] :: splitEqEq t := by
  rw [splitEqEq]
  simp

theorem splitEqEq_step_ne (c d : Char) (rest : Str) (h : ¬(c = '=' ∧ d = '=')) :
    splitEqEq (c :: d :: rest) =
      match splitEqEq (d :: rest) with
      | [] => [[c]]
      | x :: xs => (c :: x) :: xs := by
  rw [splitEqEq, if_neg h]

theorem splitEqEq_of_goodSeg (p : Str) (hp : goodSeg p = true) :
    splitEqEq p = [p] := by
  induction p with
  | nil => exact absurd hp (by simp [goodSeg])
  | cons c rest ih =>
    cases rest with
    | nil => rfl
    | cons d rest2 =>
      obtain ⟨hcond, h2⟩ := goodSeg_cons_elim hp
      rw [splitEqEq_step_ne c d rest2 hcond, ih h2]

theorem splitEqEq_goodSeg_append (p t : Str) (hp : goodSeg p = true) :
    splitEqEq (p ++ '=' :: '=' :: t) = p :: splitEqEq t := by
  induction p with
  | nil => exact absurd hp (by simp [goodSeg])
  | cons c rest ih =>
    cases rest with
    | nil =>
      have hc : c ≠ '=' := by
        simpa [goodSeg] using hp
      have hcond : ¬(c = '=' ∧ ('=' : Char) = '=') := fun h => hc h.1
      rw [List.cons_append, List.nil_append, splitEqEq_step_ne c '=' ('=' :: t) hcond,
        splitEqEq_step_sep t]
    | cons d rest2 =>
      obtain ⟨hcond, h2⟩ := goodSeg_cons_elim hp
      rw [List.cons_append, List.cons_append,
        splitEqEq_step_ne c d (rest2 ++ '=' :: '=' :: t) hcond]
      have ih2 : splitEqEq (d :: (rest2 ++ '=' :: '=' :: t)) = (d :: rest2) :: splitEqEq t :=
        ih h2
      rw [ih2]

theorem splitEqEq_joinSep (parts : List Str) (hne : parts ≠ [])
    (h : ∀ p ∈ parts, goodSeg p = true) :
    splitEqEq (joinSep ['=', '='] parts) = parts := by
  induction parts with
  | nil => exact absurd rfl hne
  | cons p rest ih =>
    cases rest with
    | nil => exact splitEqEq_of_goodSeg p (h p (by simp))
    | cons q rest2 =>
      have hjoin : joinSep ['=', '='] (p :: q :: rest2)
          = p ++ '=' :: '=' :: joinSep ['=', '='] (q :: rest2) := by
        simp [joinSep]
      rw [hjoin, splitEqEq_goodSeg_append _ _ (h p (by simp)),
        ih (by simp) (fun x hx => h x (List.mem_cons_of_mem p hx))]

theorem splitEq_of_no_eqchar (v : Str) (hv : ∀ c ∈ v, c ≠ '=') :
    splitEq v = [v] := by
  induction v with
  | nil => rfl
  | cons c rest ih =>
    have hc : c ≠ '=' := hv c (by simp)
    simp only [splitEq, if_neg hc, ih (fun x hx => hv x (List.mem_cons_of_mem c hx))]

theorem splitEq_step_ne (c : Char) (rest : Str) (h : ¬(c = '=')) :
    splitEq (c :: rest) =
      match splitEq rest with
      | [] => [[c]]
      | x :: xs => (c :: x) :: xs := by
  rw [splitEq, if_neg h]

theorem splitEq_kv (k v : Str) (hk : ∀ c ∈ k, c ≠ '=') :
    splitEq (k ++ '=' :: v) = k :: splitEq v := by
  induction k with
  | nil => simp [splitEq]
  | cons c k2 ih =>
    have hc : c ≠ '=' := hk c (by simp)
    rw [List.cons_append, splitEq_step_ne c _ hc,
      ih (fun x hx => hk x (List.mem_cons_of_mem c hx))]

theorem takeWhile_word_kv (k v : Str) (hk : ∀ c ∈ k, wordChar c = true) :
    (k ++ '=' :: v).takeWhile wordChar = k := by
  induction k with
  | nil =>
    have hw : wordChar '=' = false := by decide
    simp [List.takeWhile_cons, hw]
  | cons c k2 ih =>
    have hc : wordChar c = true := hk c (by simp)
    rw [List.cons_append, List.takeWhile_cons, if_pos hc,
      ih (fun x hx => hk x (List.mem_cons_of_mem c hx))]

theorem isKVStr_kv (k v : Str) (hk : k ≠ []) (hv : v ≠ [])
    (hkw : ∀ c ∈ k, wordChar c = true) (hvw : ∀ c ∈ v, wordChar c = true) :
    isKVStr (k ++ '=' :: v) = true := by
  unfold isKVStr
  rw [takeWhile_word_kv k v hkw, List.drop_left]
  show (!k.isEmpty && !v.isEmpty && v.all wordChar) = true
  rw [Bool.and_eq_true, Bool.and_eq_true]
  refine ⟨⟨?_, ?_⟩, ?_⟩
  · cases k with
    | nil => exact absurd rfl hk
    | cons c kk => rfl
  · cases v with
    | nil => exact absurd rfl hv
    | cons c vv => rfl
  · exact List.all_eq_true.mpr hvw

theorem insertPairByKey_perm (p : StrPair) (l : List StrPair) :
    List.Perm (insertPairByKey p l) (p :: l) := by
  induction l with
  | nil => exact List.Perm.refl _
  | cons q rest ih =>
    unfold insertPairByKey
    by_cases h : strLe q.1 p.1 = true
    · rw [if_pos h]
      exact (ih.cons q).trans (List.Perm.swap p q rest)
    · rw [if_neg h]

theorem foldl_insertPair_perm (l acc : List StrPair) :
    List.Perm (l.foldl (fun a p => insertPairByKey p a) acc) (acc ++ l) := by
  induction l generalizing acc with
  | nil => simp
  | cons p rest ih =>
    have step := ih (insertPairByKey p acc)
    have h1 : List.Perm (insertPairByKey p acc ++ rest) ((p :: acc) ++ rest) :=
      (insertPairByKey_perm p acc).append_right rest
    have h2 : List.Perm ((p :: acc) ++ rest) (acc ++ p :: rest) := List.perm_middle.symm
    exact (step.trans h1).trans h2

theorem sortPairsByKey_perm (l : List StrPair) :
    List.Perm (sortPairsByKey l) l := by
  simpa using foldl_insertPair_perm l []

theorem mapExcept_map_ok {α β γ : Type} (f : β → Except PyErr γ) (e : α → β) (g : α → γ)
    (l : List α) (h : ∀ x ∈ l, f (e x) = Except.ok (g x)) :
    mapExcept f (l.map e) = Except.ok (l.map g) := by
  induction l with
  | nil => rfl
  | cons x rest ih =>
    rw [List.map_cons, List.map_cons]
    unfold mapExcept
    rw [h x (by simp), ih (fun y hy => h y (List.mem_cons_of_mem x hy))]

theorem mapExcept_error_mem {α β : Type} (f : α → Except PyErr β) (l : List α) (e : PyErr)
    (h : mapExcept f l = Except.error e) : ∃ x ∈ l, f x = Except.error e := by
  induction l with
  | nil => exact absurd h (by simp [mapExcept])
  | cons x rest ih =>
    unfold mapExcept at h
    cases hx : f x with
    | error e2 =>
      rw [hx] at h
      have h2 : (Except.error e2 : Except PyErr (List β)) = Except.error e := h
      injection h2 with he
      subst he
      exact ⟨x, by simp, hx⟩
    | ok y =>
      rw [hx] at h
      cases hrest : mapExcept f rest with
      | error e2 =>
        rw [hrest] at h
        have h2 : (Except.error e2 : Except PyErr (List β)) = Except.error e := h
        injection h2 with he
        subst he
        obtain ⟨z, hz, hfz⟩ := ih hrest
        exact ⟨z, List.mem_cons_of_mem x hz, hfz⟩
      | ok ys =>
        rw [hrest] at h
        have h2 : (Except.ok (y :: ys) : Except PyErr (List β)) = Except.error e := h
        exact absurd h2 (by simp)

theorem dictInsert_not_mem (m : List StrPair) (k : Str) (v : Str)
    (h : ∀ p ∈ m, p.1 ≠ k) : dictInsert m k v = m ++ [(k, v)] := by
  induction m with
  | nil => rfl
  | cons p rest ih =>
    unfold dictInsert
    rw [if_neg (h p (by simp)), ih (fun q hq => h q (List.mem_cons_of_mem p hq))]
    rfl

theorem foldl_dictInsert_nodup (l acc : List StrPair)
    (h : ((acc ++ l).map Prod.fst).Nodup) :
    l.foldl (fun m p => dictInsert m p.1 p.2) acc = acc ++ l := by
  induction l generalizing acc with
  | nil => simp
  | cons p rest ih =>
    have hnot : ∀ q ∈ acc, q.1 ≠ p.1 := by
      intro q hq hqp
      rw [List.map_append, List.map_cons, List.nodup_append] at h
      exact h.2.2 (hqp ▸ List.mem_map_of_mem Prod.fst hq) (by simp)
    have hstep : dictInsert acc p.1 p.2 = acc ++ [p] := dictInsert_not_mem acc p.1 p.2 hnot
    have hre : (acc ++ [p]) ++ rest = acc ++ p :: rest := by
      rw [List.append_assoc, List.singleton_append]
    rw [List.foldl_cons, hstep, ih (acc ++ [p]) (by rw [hre]; exact h), hre]

theorem pyDictOf_nodup (l : List StrPair) (h : (l.map Prod.fst).Nodup) :
    pyDictOf l = l := by
  simpa using foldl_dictInsert_nodup l [] (by simpa using h)

theorem dictGet_eq_none (m : List StrPair) (k : Str) (h : ∀ p ∈ m, p.1 ≠ k) :
    dictGet m k = none := by
  induction m with
  | nil => rfl
  | cons p rest ih =>
    unfold dictGet
    rw [if_neg (h p (by simp))]
    exact ih (fun q hq => h q (List.mem_cons_of_mem p hq))

theorem dictGet_append_key (l1 l2 : List StrPair) (k v : Str)
    (h : ∀ p ∈ l1, p.1 ≠ k) :
    dictGet (l1 ++ (k, v) :: l2) k = some v := by
  induction l1 with
  | nil => simp [dictGet]
  | cons p rest ih =>
    rw [List.cons_append]
    unfold dictGet
    rw [if_neg (h p (by simp))]
    exact ih (fun q hq => h q (List.mem_cons_of_mem p hq))

theorem dictHasKey_eq_false (m : List StrPair) (k : Str) (h : ∀ p ∈ m, p.1 ≠ k) :
    dictHasKey m k = false := by
  induction m with
  | nil => rfl
  | cons p rest ih =>
    unfold dictHasKey
    rw [List.any_cons]
    have hp : decide (p.1 = k) = false := by simp [h p (by simp)]
    rw [hp]
    exact ih (fun q hq => h q (List.mem_cons_of_mem p hq))

theorem dictHasKey_of_mem (m : List StrPair) (k v : Str) (h : (k, v) ∈ m) :
    dictHasKey m k = true :=
  List.any_eq_true.mpr ⟨(k, v), h, by simp⟩

/-- Claim C1, counterexample: for the schema `P = ['a']` and the assignment
`A = a -> b=c` (whose key set equals `P`), decoding the encoded token yields
the dict `a -> b`, not `A`: the value containing `'='` is silently truncated,
so `decodeAssignment(encodeAssignment(A)) == A` fails. -/
theorem unserialize_serialize_roundtrip_cex :
    unserialize_assignments (serialize_assignments [(['a'], ['b', '=', 'c'])])
      = Except.ok [(['a'], ['b'])] ∧
    ¬ List.Perm [((['a'] : Str), (['b'] : Str))] [(['a'], ['b', '=', 'c'])] := by
  constructor
  · decide
  · decide

/-- Claim C1, amended: for every nonempty assignment `A` with pairwise
distinct keys whose keys and values are nonempty strings of word characters
(letters, digits, underscore), decoding the encoded token returns `A` as a
Python dict: the decoded pair list is a permutation (the key-sorted
reordering) of `A`. -/
theorem unserialize_serialize_roundtrip (a : List StrPair)
    (hne : a ≠ [])
    (hnd : (a.map Prod.fst).Nodup)
    (hw : ∀ p ∈ a, p.1 ≠ [] ∧ p.2 ≠ [] ∧ p.1.all wordChar = true ∧ p.2.all wordChar = true) :
    ∃ b, unserialize_assignments (serialize_assignments a) = Except.ok b ∧ List.Perm b a := by
  have hperm : List.Perm (sortPairsByKey a) a := sortPairsByKey_perm a
  have hsne : sortPairsByKey a ≠ [] := by
    intro h0
    rw [h0] at hperm
    exact hne hperm.symm.eq_nil
  have hwS : ∀ p ∈ sortPairsByKey a,
      p.1 ≠ [] ∧ p.2 ≠ [] ∧ p.1.all wordChar = true ∧ p.2.all wordChar = true :=
    fun p hp => hw p (hperm.mem_iff.mp hp)
  have hkey_ne : ∀ p ∈ sortPairsByKey a,
      (∀ c ∈ p.1, c ≠ '=') ∧ (∀ c ∈ p.2, c ≠ '=') := by
    intro p hp
    obtain ⟨h1, h2, h3, h4⟩ := hwS p hp
    exact ⟨fun c hc => wordChar_ne_eqchar (List.all_eq_true.mp h3 c hc),
           fun c hc => wordChar_ne_eqchar (List.all_eq_true.mp h4 c hc)⟩
  have hgood : ∀ q ∈ (sortPairsByKey a).map (fun p => p.1 ++ '=' :: p.2),
      goodSeg q = true := by
    intro q hq
    obtain ⟨p, hp, rfl⟩ := List.mem_map.mp hq
    obtain ⟨h1, h2, h3, h4⟩ := hwS p hp
    obtain ⟨he1, he2⟩ := hkey_ne p hp
    exact goodSeg_kv p.1 p.2 h1 h2 he1 he2
  have hpartsne : (sortPairsByKey a).map (fun p => p.1 ++ '=' :: p.2) ≠ [] := by
    simpa using hsne
  have hsplit : splitEqEq (serialize_assignments a)
      = (sortPairsByKey a).map (fun p => p.1 ++ '=' :: p.2) := by
    unfold serialize_assignments
    exact splitEqEq_joinSep _ hpartsne hgood
  have hlang : inKVLang (serialize_assignments a) = true := by
    unfold inKVLang
    rw [hsplit]
    refine List.all_eq_true.mpr ?_
    intro q hq
    obtain ⟨p, hp, rfl⟩ := List.mem_map.mp hq
    obtain ⟨h1, h2, h3, h4⟩ := hwS p hp
    exact isKVStr_kv p.1 p.2 h1 h2 (List.all_eq_true.mp h3) (List.all_eq_true.mp h4)
  have hmatch : reMatchKV (serialize_assignments a) = true := by
    unfold reMatchKV
    exact List.any_eq_true.mpr ⟨serialize_assignments a,
      (List.mem_inits _ _).mpr (List.prefix_refl _), hlang⟩
  have hmapE : mapExcept (fun arg =>
        match splitEq arg with
        | k :: v :: _ => Except.ok ((k, v) : StrPair)
        | _ => Except.error PyErr.indexError)
      ((sortPairsByKey a).map (fun p => p.1 ++ '=' :: p.2))
      = Except.ok ((sortPairsByKey a).map (fun p => p)) := by
    refine mapExcept_map_ok _ _ _ _ ?_
    intro p hp
    obtain ⟨he1, he2⟩ := hkey_ne p hp
    have hs : splitEq (p.1 ++ '=' :: p.2) = p.1 :: splitEq p.2 := splitEq_kv p.1 p.2 he1
    rw [splitEq_of_no_eqchar p.2 he2] at hs
    rw [hs]
  have hid : (sortPairsByKey a).map (fun p => p) = sortPairsByKey a := List.map_id' _
  have hnodS : ((sortPairsByKey a).map Prod.fst).Nodup :=
    (hperm.map Prod.fst).nodup_iff.mpr hnd
  refine ⟨sortPairsByKey a, ?_, hperm⟩
  unfold unserialize_assignments
  rw [if_pos hmatch, hsplit, hmapE, hid]
  show Except.ok (pyDictOf (sortPairsByKey a)) = Except.ok (sortPairsByKey a)
  rw [pyDictOf_nodup _ hnodS]

/-- Claim C1, witness: the amended round-trip at the concrete assignment
`os -> x` over the schema `['os']`. -/
theorem unserialize_serialize_roundtrip_witness :
    ∃ b, unserialize_assignments (serialize_assignments [(['o', 's'], ['x'])])
      = Except.ok b ∧ List.Perm b [((['o', 's'] : Str), (['x'] : Str))] :=
  unserialize_serialize_roundtrip [(['o', 's'], ['x'])] (by decide) (by decide) (by decide)

/-- Claim C8, counterexample: the assignment `a -> b=c` has a value
containing `'='`, yet `encodeAssignment` produces the token `a=b=c` instead
of failing: `__serialize_assignments` performs no validation at all. -/
theorem serialize_assignments_no_reject_cex :
    serialize_assignments [(['a'], ['b', '=', 'c'])] = ['a', '=', 'b', '=', 'c'] := by
  decide

/-- Claim C8, amended: `encodeAssignment` performs no validation: a key or
value containing `'='` (or the separator `'=='`) is joined into a token all
the same, and distinct assignments can collide on one token — moving an
`'='`-delimited block from the value into the key leaves the encoded token
unchanged. -/
theorem serialize_assignments_collision (k v1 v2 : Str) :
    serialize_assignments [(k, v1 ++ '=' :: v2)]
      = serialize_assignments [(k ++ '=' :: v1, v2)] := by
  show k ++ '=' :: (v1 ++ '=' :: v2) = (k ++ '=' :: v1) ++ '=' :: v2
  simp

/-- Claim C9, counterexample: the token `a=b c` does not match the strict
pair grammar (the space is not a word character, `inKVLang` rejects it), yet
`decodeAssignment` raises no `ValueError`: the unanchored `re.match` accepts
the prefix `a=b`, and the token decodes to the dict `a -> b c`. -/
theorem unserialize_lenient_cex :
    inKVLang ['a', '=', 'b', ' ', 'c'] = false ∧
    unserialize_assignments ['a', '=', 'b', ' ', 'c']
      = Except.ok [(['a'], ['b', ' ', 'c'])] := by
  constructor
  · decide
  · decide

theorem pairToken_no_valueerror (x : Str) :
    (match splitEq x with
     | k :: v :: _ => Except.ok ((k, v) : StrPair)
     | _ => Except.error PyErr.indexError) ≠ Except.error PyErr.valueError := by
  cases hsx : splitEq x with
  | nil => simp
  | cons k tail =>
    cases tail with
    | nil => simp
    | cons v rest => simp

theorem marker_sep_inits_fail :
    ∀ p ∈ (paramsMarker ++ ['=', '=']).inits, inKVLang p = false := by
  decide

theorem reMatchKV_marker_append (t : Str) :
    reMatchKV (paramsMarker ++ '=' :: '=' :: t) = false := by
  unfold reMatchKV
  refine List.any_eq_false.mpr ?_
  intro p hp hlang
  have hpre : p <+: paramsMarker ++ '=' :: '=' :: t := (List.mem_inits _ _).mp hp
  have hA : (paramsMarker ++ ['=', '=']) <+: paramsMarker ++ '=' :: '=' :: t :=
    ⟨t, by simp⟩
  rcases List.prefix_or_prefix_of_prefix hpre hA with hc | hc
  · have hfail := marker_sep_inits_fail p ((List.mem_inits _ _).mpr hc)
    rw [hlang] at hfail
    exact absurd hfail (by decide)
  · obtain ⟨q, rfl⟩ := hc
    have hsplit : splitEqEq ((paramsMarker ++ ['=', '=']) ++ q)
        = paramsMarker :: splitEqEq q := by
      rw [List.append_assoc]
      exact splitEqEq_goodSeg_append paramsMarker q (by decide)
    rw [inKVLang, hsplit, List.all_cons, Bool.and_eq_true] at hlang
    exact absurd hlang.1 (by decide)

/-- Claim C9, amended: `decodeAssignment` raises `ValueError` exactly when no
prefix of the token matches the pair grammar `((\w+=\w+)==)*(\w+=\w+)` (the
`re.match` is unanchored, so tokens with a matching proper prefix are decoded
leniently or fail with `IndexError` instead); in particular every
schema-marker token `serialize_params P` has no matching prefix and is always
rejected with `ValueError`, never parsed as an assignment. -/
theorem unserialize_valueerror_iff :
    (∀ s, unserialize_assignments s = Except.error PyErr.valueError ↔ reMatchKV s = false) ∧
    (∀ ps, unserialize_assignments (serialize_params ps) = Except.error PyErr.valueError) := by
  have main : ∀ s, unserialize_assignments s = Except.error PyErr.valueError
      ↔ reMatchKV s = false := by
    intro s
    constructor
    · intro h
      by_contra hm
      rw [Bool.not_eq_false] at hm
      unfold unserialize_assignments at h
      rw [if_pos hm] at h
      cases hmap : mapExcept (fun arg =>
          match splitEq arg with
          | k :: v :: _ => Except.ok ((k, v) : StrPair)
          | _ => Except.error PyErr.indexError) (splitEqEq s) with
      | error e =>
        rw [hmap] at h
        have h2 : (Except.error e : Except PyErr (List StrPair))
            = Except.error PyErr.valueError := h
        injection h2 with he
        subst he
        obtain ⟨x, _, hfx⟩ := mapExcept_error_mem _ _ _ hmap
        exact pairToken_no_valueerror x hfx
      | ok pairs =>
        rw [hmap] at h
        have h2 : (Except.ok (pyDictOf pairs) : Except PyErr (List StrPair))
            = Except.error PyErr.valueError := h
        exact absurd h2 (by simp)
    · intro h
      unfold unserialize_assignments
      rw [if_neg (by simp [h])]
  refine ⟨main, ?_⟩
  intro ps
  rw [main]
  unfold serialize_params
  cases hs : sortStr ps with
  | nil =>
    show reMatchKV paramsMarker = false
    decide
  | cons x rest =>
    show reMatchKV (paramsMarker ++ ['=', '='] ++ joinSep ['=', '='] (x :: rest)) = false
    rw [List.append_assoc]
    exact reMatchKV_marker_append _

theorem foldl_remote_params_none (dirs : List Str) (acc : Option (List Str)) :
    dirs.foldl
      (fun acc dir_name =>
        if containsSub paramsMarker dir_name then some ((splitEqEq dir_name).drop 1) else acc)
      acc = none
    ↔ acc = none ∧ ∀ d ∈ dirs, containsSub paramsMarker d = false := by
  induction dirs generalizing acc with
  | nil => simp
  | cons d rest ih =>
    rw [List.foldl_cons, ih]
    by_cases h : containsSub paramsMarker d = true
    · rw [if_pos h]
      simp [h]
    · have h2 : containsSub paramsMarker d = false := by simpa using h
      rw [if_neg h]
      simp [h2]

theorem get_remote_params_none_iff (dirs : List Str) :
    get_remote_params dirs = none
      ↔ ∀ d ∈ dirs, containsSub paramsMarker d = false := by
  unfold get_remote_params
  rw [foldl_remote_params_none]
  simp

theorem containsSub_self_append (needle w : Str) :
    containsSub needle (needle ++ w) = true := by
  unfold containsSub
  refine List.any_eq_true.mpr ⟨needle ++ w, ?_, ?_⟩
  · exact (List.mem_tails _ _).mpr (List.suffix_refl _)
  · exact List.isPrefixOf_iff_prefix.mpr (List.prefix_append _ _)

theorem serialize_params_marker_prefix (q : List Str) :
    ∃ w, serialize_params q = paramsMarker ++ w := by
  unfold serialize_params
  cases h : sortStr q with
  | nil => exact ⟨[], by simp [joinSep]⟩
  | cons x rest =>
    exact ⟨'=' :: '=' :: joinSep ['=', '='] (x :: rest), by simp [joinSep]⟩

/-- Claim C2: constructing a registry follows exactly the three-case
lifecycle of `PackageRegistryFileBased.__init__`: with a caller schema and no
remote marker, the schema-marker entry is persisted (and creating it cannot
collide, since no listed entry contains the marker substring) and the caller
schema is adopted; with a remote marker present, the remote schema is
adopted regardless of the caller's input and the listing is unchanged; with
neither, construction fails with `FileNotFoundError`. -/
theorem registry_init_lifecycle (dirs : List Str) :
    (∀ q, get_remote_params dirs = none →
      registry_init dirs (some q) = Except.ok (q, dirs ++ [serialize_params q])) ∧
    (∀ rp op, get_remote_params dirs = some rp →
      registry_init dirs op = Except.ok (rp, dirs)) ∧
    (get_remote_params dirs = none →
      registry_init dirs none = Except.error PyErr.fileNotFound) := by
  refine ⟨?_, ?_, ?_⟩
  · intro q h
    have hnot : serialize_params q ∉ dirs := by
      intro hmem
      obtain ⟨w, hw⟩ := serialize_params_marker_prefix q
      have hcont : containsSub paramsMarker (serialize_params q) = true := by
        rw [hw]
        exact containsSub_self_append _ _
      have hfalse := (get_remote_params_none_iff dirs).mp h _ hmem
      rw [hcont] at hfalse
      exact absurd hfalse (by decide)
    unfold registry_init
    rw [h]
    show (if serialize_params q ∈ dirs then Except.error PyErr.fileExists
      else Except.ok (q, dirs ++ [serialize_params q])) = _
    rw [if_neg hnot]
  · intro rp op h
    unfold registry_init
    rw [h]
  · intro h
    unfold registry_init
    rw [h]

/-- Claim C2, witness: the three cases at concrete inputs — an empty listing
with caller schema `['os']` persists the marker; a listing already holding
the marker `__params==os` makes the remote schema win over the caller's
`['x']`; an empty listing with no caller schema fails `FileNotFoundError`. -/
theorem registry_init_lifecycle_witness :
    registry_init [] (some [['o', 's']])
      = Except.ok ([['o', 's']], [serialize_params [['o', 's']]]) ∧
    registry_init [serialize_params [['o', 's']]] (some [['x']])
      = Except.ok ([['o', 's']], [serialize_params [['o', 's']]]) ∧
    registry_init [] none = Except.error PyErr.fileNotFound := by
  refine ⟨?_, ?_, ?_⟩
  · exact (registry_init_lifecycle []).1 [['o', 's']] rfl
  · exact (registry_init_lifecycle [serialize_params [['o', 's']]]).2.1
      [['o', 's']] (some [['x']]) (by decide)
  · exact (registry_init_lifecycle []).2.2 rfl

/-- Claim C4: `add_package_binary` with an assignment whose key set differs
from the registry schema raises `KeyError`; the check is the first statement
of the method, before any storage access, so the call leaves storage
unmodified (the model returns the error ahead of any state update). -/
theorem add_package_binary_wrong_key (st : RegState) (a : List StrPair) (r1 r2 : Str)
    (h : sameSet (a.map Prod.fst) st.params = false) :
    add_package_binary st a r1 r2 = Except.error PyErr.keyError := by
  unfold add_package_binary
  rw [if_pos h]

/-- Claim C4, witness: adding `x -> y` to a registry with schema `['os']`
raises `KeyError`. -/
theorem add_package_binary_wrong_key_witness :
    add_package_binary ⟨[['o', 's']], []⟩ [(['x'], ['y'])] ['r'] ['r']
      = Except.error PyErr.keyError :=
  add_package_binary_wrong_key ⟨[['o', 's']], []⟩ [(['x'], ['y'])] ['r'] ['r'] (by decide)

/-- Claim C3: `add_package_binary` for an assignment already present in the
wrapper mapping raises `FileExistsError`; the error is raised before either
`mkdir`, so no storage entry is created and the listing size is unchanged
(the model returns the error with no state update). -/
theorem add_package_binary_existing (st : RegState) (a : List StrPair) (r1 r2 : Str)
    (m : List StrPair)
    (hm : wrapperMapping st = Except.ok m)
    (hk : sameSet (a.map Prod.fst) st.params = true)
    (hp : dictHasKey m (serialize_assignments a) = true) :
    add_package_binary st a r1 r2 = Except.error PyErr.fileExists := by
  unfold add_package_binary
  rw [if_neg (by simp [hk])]
  simp only [hm]
  rw [if_pos hp]

/-- Claim C3, witness: re-adding `os -> a` to a registry already holding it
raises `FileExistsError`. -/
theorem add_package_binary_existing_witness :
    add_package_binary
      ⟨[['o', 's']], [⟨['w'], [serialize_assignments [(['o', 's'], ['a'])]], none⟩]⟩
      [(['o', 's'], ['a'])] ['r', '1'] ['r', '2'] = Except.error PyErr.fileExists :=
  add_package_binary_existing
    ⟨[['o', 's']], [⟨['w'], [serialize_assignments [(['o', 's'], ['a'])]], none⟩]⟩
    [(['o', 's'], ['a'])] ['r', '1'] ['r', '2']
    [(serialize_assignments [(['o', 's'], ['a'])], ['w'])]
    (by decide) (by decide) (by decide)

/-- Claim C5, counterexample: removing a never-added assignment from an
empty registry raises `KeyError` — the failed dict subscript
`mapping[serialized]` in `remove_package_binary` — and not the
`FileNotFoundError` the claim's "fails NotFound" would require. -/
theorem remove_package_binary_absent_cex :
    remove_package_binary ⟨[['o', 's']], []⟩ [(['o', 's'], ['a'])]
      = Except.error PyErr.keyError ∧
    remove_package_binary ⟨[['o', 's']], []⟩ [(['o', 's'], ['a'])]
      ≠ Except.error PyErr.fileNotFound := by
  constructor
  · decide
  · decide

/-- Claim C5, amended: `remove_package_binary` resolves the assignment
through the listing map; when the serialized assignment is not a key of the
map it raises `KeyError` (the dict subscript), not `FileNotFoundError`; when
it is present, the resolved wrapper entry is removed recursively
(`client.rmdir`). -/
theorem remove_package_binary_behavior (st : RegState) (a : List StrPair)
    (m : List StrPair) (hm : wrapperMapping st = Except.ok m) :
    (dictGet m (serialize_assignments a) = none →
      remove_package_binary st a = Except.error PyErr.keyError) ∧
    (∀ w, dictGet m (serialize_assignments a) = some w →
      st.entries.any (fun e => decide (e.name = w)) = true →
      remove_package_binary st a
        = Except.ok ⟨st.params, st.entries.eraseP (fun e => decide (e.name = w))⟩) := by
  constructor
  · intro h
    unfold remove_package_binary
    simp only [hm]
    rw [h]
  · intro w hw hmem
    unfold remove_package_binary
    simp only [hm, hw]
    unfold rmdirReg
    rw [if_pos hmem]

/-- Claim C5, witness: removing the present assignment `os -> a` removes its
wrapper entry, leaving the registry empty. -/
theorem remove_package_binary_behavior_witness :
    remove_package_binary
      ⟨[['o', 's']], [⟨['w'], [serialize_assignments [(['o', 's'], ['a'])]], none⟩]⟩
      [(['o', 's'], ['a'])]
      = Except.ok ⟨[['o', 's']], []⟩ :=
  (remove_package_binary_behavior
    ⟨[['o', 's']], [⟨['w'], [serialize_assignments [(['o', 's'], ['a'])]], none⟩]⟩
    [(['o', 's'], ['a'])]
    [(serialize_assignments [(['o', 's'], ['a'])], ['w'])]
    (by decide)).2 ['w'] (by decide) (by decide)

theorem names_eraseP_not_mem (ms : MState) (n : Str)
    (hnd : (ms.map (fun e => e.name)).Nodup) :
    n ∉ (ms.eraseP (fun e => decide (e.name = n))).map (fun e => e.name) := by
  induction ms with
  | nil => simp
  | cons e rest ih =>
    rw [List.map_cons, List.nodup_cons] at hnd
    by_cases he : e.name = n
    · have hp : decide (e.name = n) = true := by simp [he]
      rw [List.eraseP_cons, hp, cond_true]
      exact he ▸ hnd.1
    · have hp : decide (e.name = n) = false := by simp [he]
      rw [List.eraseP_cons, hp, cond_false, List.map_cons]
      simp only [List.mem_cons]
      rintro (h1 | h2)
      · exact he h1.symm
      · exact ih hnd.2 h2

/-- Claim C6: `add_package_registry` under a name already listed raises
`FileExistsError`; and after a successful `remove_package_registry(name)`,
`get_package_registry(name)` raises `FileNotFoundError` (with distinct
registry names, the recursive delete leaves no entry under that name). -/
theorem manager_add_remove_get (ms : MState) (name : Str) (settings_key : List Str) :
    (name ∈ ms.map (fun e => e.name) →
      add_package_registry ms name settings_key = Except.error PyErr.fileExists) ∧
    ((ms.map (fun e => e.name)).Nodup →
      ∀ ms2, remove_package_registry ms name = Except.ok ms2 →
        get_package_registry ms2 name = Except.error PyErr.fileNotFound) := by
  constructor
  · intro h
    unfold add_package_registry
    rw [if_pos h]
  · intro hnd ms2 hrem
    unfold remove_package_registry at hrem
    by_cases hmem : ms.any (fun e => decide (e.name = name)) = true
    · rw [if_pos hmem] at hrem
      have h2 : (Except.ok (ms.eraseP (fun e => decide (e.name = name)))
          : Except PyErr MState) = Except.ok ms2 := hrem
      injection h2 with he
      subst he
      unfold get_package_registry
      rw [if_neg (names_eraseP_not_mem ms name hnd)]
    · rw [if_neg hmem] at hrem
      have h2 : (Except.error PyErr.fileNotFound : Except PyErr MState)
          = Except.ok ms2 := hrem
      exact absurd h2 (by simp)

/-- Claim C6, witness: re-adding the registry name `r` fails
`FileExistsError`; and after removing `r` (leaving the empty manager), `get`
on `r` fails `FileNotFoundError`. -/
theorem manager_add_remove_get_witness :
    add_package_registry [⟨['r'], []⟩] ['r'] [['o', 's']] = Except.error PyErr.fileExists ∧
    get_package_registry [] ['r'] = Except.error PyErr.fileNotFound := by
  constructor
  · exact (manager_add_remove_get [⟨['r'], []⟩] ['r'] [['o', 's']]).1 (by decide)
  · exact (manager_add_remove_get [⟨['r'], []⟩] ['r'] [['o', 's']]).2
      (by decide) [] (by decide)

/-- Claim C10: `add_package_binary` re-rolls a random-name collision exactly
once and never re-checks the second draw: on the concrete registry `regC10`
holding wrappers `nameA` and `nameB`, adding the absent assignment
`os -> c` with both draws colliding (`r1 = nameA`, a mapping value, so the
single re-roll picks `r2 = nameB`, also an existing entry) reaches `mkdir`
with the colliding second name and raises the backend's `FileExistsError`,
even though the assignment being added is not present in the mapping. -/
theorem add_package_binary_double_collision :
    wrapperMapping regC10 = Except.ok mapC10 ∧
    dictHasKey mapC10 (serialize_assignments [(['o', 's'], ['c'])]) = false ∧
    nameA ∈ dictValues mapC10 ∧
    add_package_binary regC10 [(['o', 's'], ['c'])] nameA nameB
      = Except.error PyErr.fileExists := by
  refine ⟨by decide, by decide, by decide, by decide⟩

theorem entryMarker_row (nm mk : Str) (pay : Option (List Nat)) (h : mk ≠ binName) :
    entryMarker ⟨nm, [mk], pay⟩ = Except.ok ((mk, nm) : StrPair) := by
  have hne : binName ≠ mk := Ne.symm h
  cases pay with
  | none => simp [entryMarker, subLs, hne]
  | some bytes => simp [entryMarker, subLs, hne, List.erase_cons, h]

theorem wrapperMapping_mkReg (ps : List Str) (rows : List (Str × Str × Option (List Nat)))
    (hbin : ∀ r ∈ rows, r.2.1 ≠ binName)
    (hnm : (rows.map (fun r => r.2.1)).Nodup) :
    wrapperMapping (mkReg ps rows)
      = Except.ok (rows.map (fun r => ((r.2.1, r.1) : StrPair))) := by
  have hmap : mapExcept entryMarker (rows.map (fun r => (⟨r.1, [r.2.1], r.2.2⟩ : BinEntry)))
      = Except.ok (rows.map (fun r => ((r.2.1, r.1) : StrPair))) := by
    refine mapExcept_map_ok entryMarker _ _ rows ?_
    intro r hr
    exact entryMarker_row r.1 r.2.1 r.2.2 (hbin r hr)
  show (match mapExcept entryMarker (rows.map fun r => (⟨r.1, [r.2.1], r.2.2⟩ : BinEntry)) with
    | Except.error e => Except.error e
    | Except.ok pairs => Except.ok (pyDictOf pairs))
    = Except.ok (rows.map (fun r => ((r.2.1, r.1) : StrPair)))
  rw [hmap]
  show Except.ok (pyDictOf (rows.map fun r => ((r.2.1, r.1) : StrPair)))
    = Except.ok (rows.map (fun r => ((r.2.1, r.1) : StrPair)))
  rw [pyDictOf_nodup]
  rw [List.map_map]
  exact hnm

theorem map_rewrite_entries (pre post : List (Str × Str × Option (List Nat)))
    (w : Str) (pay : Option (List Nat)) (sO sN : Str)
    (hpre : ∀ r ∈ pre, r.1 ≠ w) (hpost : ∀ r ∈ post, r.1 ≠ w) :
    ((pre ++ (w, sO, pay) :: post).map
        (fun r => (⟨r.1, [r.2.1], r.2.2⟩ : BinEntry))).map
      (fun e => if e.name = w then
          { e with subs := e.subs.map (fun s => if s = sO then sN else s) }
        else e)
      = (pre ++ (w, sN, pay) :: post).map
        (fun r => (⟨r.1, [r.2.1], r.2.2⟩ : BinEntry)) := by
  rw [List.map_map, List.map_append, List.map_cons, List.map_append, List.map_cons]
  have hmid : ((fun e => if e.name = w then
        ({ e with subs := e.subs.map (fun s => if s = sO then sN else s) } : BinEntry)
      else e) ∘ (fun r => (⟨r.1, [r.2.1], r.2.2⟩ : BinEntry))) (w, sO, pay)
      = (⟨w, [sN], pay⟩ : BinEntry) := by
    simp
  rw [hmid]
  congr 1
  · refine List.map_congr_left ?_
    intro r hr
    show (if r.1 = w then _ else _) = (⟨r.1, [r.2.1], r.2.2⟩ : BinEntry)
    rw [if_neg (hpre r hr)]
  · congr 1
    refine List.map_congr_left ?_
    intro r hr
    show (if r.1 = w then _ else _) = (⟨r.1, [r.2.1], r.2.2⟩ : BinEntry)
    rw [if_neg (hpost r hr)]

/-- Claim C7: `reassign_binary` (modelled from the spec, its implementation
being absent from the sources while the CLI invokes it) rewrites only the
nested assignment marker of the resolved wrapper.  On any registry state
whose listing map does not hold `old`, the call fails `FileNotFoundError`;
on any state in which `old` resolves but `new` is already a key of the map,
it fails `FileExistsError`; and on a well-formed registry in which `old` is
present under wrapper `w` and `new` is unused, the call succeeds, every
wrapper's payload bytes are unchanged (no payload copy),
`get_package_binary old` afterwards fails `FileNotFoundError`, and
`get_package_binary new` succeeds returning the same payload. -/
theorem reassign_binary_correct
    (ps : List Str) (pre post : List (Str × Str × Option (List Nat)))
    (w : Str) (pay : Option (List Nat)) (oldA newA : List StrPair)
    (hbin : ∀ r ∈ pre ++ (w, serialize_assignments oldA, pay) :: post, r.2.1 ≠ binName)
    (hnewbin : serialize_assignments newA ≠ binName)
    (hnw : ((pre ++ (w, serialize_assignments oldA, pay) :: post).map
        (fun r => r.1)).Nodup)
    (hnm : ((pre ++ (w, serialize_assignments oldA, pay) :: post).map
        (fun r => r.2.1)).Nodup)
    (hnew : serialize_assignments newA
        ∉ (pre ++ (w, serialize_assignments oldA, pay) :: post).map (fun r => r.2.1))
    (hko : sameSet (oldA.map (fun p => p.1)) ps = true)
    (hkn : sameSet (newA.map (fun p => p.1)) ps = true) :
    (∀ st m, wrapperMapping st = Except.ok m →
      dictGet m (serialize_assignments oldA) = none →
      reassign_binary st oldA newA = Except.error PyErr.fileNotFound) ∧
    (∀ st m wv, wrapperMapping st = Except.ok m →
      dictGet m (serialize_assignments oldA) = some wv →
      dictHasKey m (serialize_assignments newA) = true →
      reassign_binary st oldA newA = Except.error PyErr.fileExists) ∧
    reassign_binary (mkReg ps (pre ++ (w, serialize_assignments oldA, pay) :: post))
        oldA newA
      = Except.ok
        (mkReg ps (pre ++ (w, serialize_assignments newA, pay) :: post)) ∧
    (mkReg ps (pre ++ (w, serialize_assignments newA, pay) :: post)).entries.map
        (fun e => e.payload)
      = (mkReg ps (pre ++ (w, serialize_assignments oldA, pay) :: post)).entries.map
        (fun e => e.payload) ∧
    get_package_binary (mkReg ps (pre ++ (w, serialize_assignments newA, pay) :: post))
        oldA
      = Except.error PyErr.fileNotFound ∧
    (∃ e, get_package_binary
        (mkReg ps (pre ++ (w, serialize_assignments newA, pay) :: post)) newA
      = Except.ok e ∧ e.payload = pay) := by
  set sO := serialize_assignments oldA with hsO
  set sN := serialize_assignments newA with hsN
  have hnm2' := hnm
  rw [List.map_append, List.map_cons] at hnm2'
  obtain ⟨ndpre, ndcons, disj⟩ := List.nodup_append.mp hnm2'
  obtain ⟨hO_post, ndpost⟩ := List.nodup_cons.mp ndcons
  have hnw2' := hnw
  rw [List.map_append, List.map_cons] at hnw2'
  obtain ⟨ndnpre, ndncons, disjn⟩ := List.nodup_append.mp hnw2'
  obtain ⟨hw_post, ndnpost⟩ := List.nodup_cons.mp ndncons
  have F1 : ∀ r ∈ pre, r.2.1 ≠ sO := by
    intro r hr heq
    exact disj (List.mem_map_of_mem _ hr) (by rw [heq]; exact List.mem_cons_self _ _)
  have F2 : ∀ r ∈ post, r.2.1 ≠ sO := by
    intro r hr heq
    exact hO_post (heq ▸ List.mem_map_of_mem (fun r => r.2.1) hr)
  have F3 : ∀ r ∈ pre, r.1 ≠ w := by
    intro r hr heq
    exact disjn (List.mem_map_of_mem _ hr) (by rw [heq]; exact List.mem_cons_self _ _)
  have F4 : ∀ r ∈ post, r.1 ≠ w := by
    intro r hr heq
    exact hw_post (heq ▸ List.mem_map_of_mem (fun r => r.1) hr)
  rw [List.map_append, List.map_cons, List.mem_append, List.mem_cons] at hnew
  push_neg at hnew
  obtain ⟨F5, F7ne, F6⟩ := hnew
  have F7 : sO ≠ sN := fun h => F7ne h.symm
  have hbin_pre : ∀ r ∈ pre, r.2.1 ≠ binName :=
    fun r hr => hbin r (List.mem_append_left _ hr)
  have hbin_post : ∀ r ∈ post, r.2.1 ≠ binName :=
    fun r hr => hbin r (List.mem_append_right _ (List.mem_cons_of_mem _ hr))
  have hwm := wrapperMapping_mkReg ps (pre ++ (w, sO, pay) :: post) hbin hnm
  have hget_old : dictGet ((pre ++ (w, sO, pay) :: post).map
      (fun r => ((r.2.1, r.1) : StrPair))) sO = some w := by
    rw [List.map_append, List.map_cons]
    refine dictGet_append_key _ _ _ _ ?_
    intro p hp
    obtain ⟨r, hr, rfl⟩ := List.mem_map.mp hp
    exact F1 r hr
  have hhk_new : dictHasKey ((pre ++ (w, sO, pay) :: post).map
      (fun r => ((r.2.1, r.1) : StrPair))) sN = false := by
    refine dictHasKey_eq_false _ _ ?_
    intro p hp
    rw [List.map_append, List.map_cons] at hp
    rcases List.mem_append.mp hp with h1 | h2
    · obtain ⟨r, hr, rfl⟩ := List.mem_map.mp h1
      exact fun heq => F5 (heq ▸ List.mem_map_of_mem (fun r => r.2.1) hr)
    · rcases List.mem_cons.mp h2 with h3 | h4
      · rw [h3]
        exact F7
      · obtain ⟨r, hr, rfl⟩ := List.mem_map.mp h4
        exact fun heq => F6 (heq ▸ List.mem_map_of_mem (fun r => r.2.1) hr)
  have hbin2 : ∀ r ∈ pre ++ (w, sN, pay) :: post, r.2.1 ≠ binName := by
    intro r hr
    rcases List.mem_append.mp hr with h1 | h2
    · exact hbin_pre r h1
    · rcases List.mem_cons.mp h2 with h3 | h4
      · rw [h3]
        exact hnewbin
      · exact hbin_post r h4
  have hnmB : ((pre ++ (w, sN, pay) :: post).map (fun r => r.2.1)).Nodup := by
    rw [List.map_append, List.map_cons]
    refine List.nodup_append.mpr ⟨ndpre, List.nodup_cons.mpr ⟨F6, ndpost⟩, ?_⟩
    intro x hx hx2
    rcases List.mem_cons.mp hx2 with h3 | h4
    · subst h3
      exact F5 hx
    · exact disj hx (List.mem_cons_of_mem _ h4)
  have hwm2 := wrapperMapping_mkReg ps (pre ++ (w, sN, pay) :: post) hbin2 hnmB
  have hget_none : dictGet ((pre ++ (w, sN, pay) :: post).map
      (fun r => ((r.2.1, r.1) : StrPair))) sO = none := by
    refine dictGet_eq_none _ _ ?_
    intro p hp
    rw [List.map_append, List.map_cons] at hp
    rcases List.mem_append.mp hp with h1 | h2
    · obtain ⟨r, hr, rfl⟩ := List.mem_map.mp h1
      exact F1 r hr
    · rcases List.mem_cons.mp h2 with h3 | h4
      · rw [h3]
        exact fun heq => F7 heq.symm
      · obtain ⟨r, hr, rfl⟩ := List.mem_map.mp h4
        exact F2 r hr
  have hget_new : dictGet ((pre ++ (w, sN, pay) :: post).map
      (fun r => ((r.2.1, r.1) : StrPair))) sN = some w := by
    rw [List.map_append, List.map_cons]
    refine dictGet_append_key _ _ _ _ ?_
    intro p hp
    obtain ⟨r, hr, rfl⟩ := List.mem_map.mp hp
    intro heq
    apply F5
    have heq2 : r.2.1 = sN := heq
    rw [← heq2]
    exact List.mem_map_of_mem (fun r => r.2.1) hr
  have hfind : (mkReg ps (pre ++ (w, sN, pay) :: post)).entries.find?
      (fun e => decide (e.name = w)) = some ⟨w, [sN], pay⟩ := by
    show ((pre ++ (w, sN, pay) :: post).map
        (fun r => (⟨r.1, [r.2.1], r.2.2⟩ : BinEntry))).find?
        (fun e => decide (e.name = w)) = some ⟨w, [sN], pay⟩
    rw [List.map_append, List.map_cons, List.find?_append]
    have hpre_none : (pre.map (fun r => (⟨r.1, [r.2.1], r.2.2⟩ : BinEntry))).find?
        (fun e => decide (e.name = w)) = none := by
      refine List.find?_eq_none.mpr ?_
      intro e he
      obtain ⟨r, hr, rfl⟩ := List.mem_map.mp he
      simp [F3 r hr]
    rw [hpre_none, List.find?_cons_of_pos _ (by simp)]
    rfl
  refine ⟨?_, ?_, ?_, ?_, ?_, ?_⟩
  · intro st m hm hnone
    unfold reassign_binary
    rw [← hsO, ← hsN]
    simp only [hm, hnone]
  · intro st m wv hm hsome hhk
    unfold reassign_binary
    rw [← hsO, ← hsN]
    simp only [hm, hsome]
    rw [if_pos hhk]
  · unfold reassign_binary
    rw [← hsO, ← hsN]
    simp only [hwm, hget_old]
    rw [if_neg (by rw [hhk_new]; exact Bool.false_ne_true)]
    refine congrArg Except.ok ?_
    show (⟨ps, ((pre ++ (w, sO, pay) :: post).map
        (fun r => (⟨r.1, [r.2.1], r.2.2⟩ : BinEntry))).map
        (fun e => if e.name = w then
            { e with subs := e.subs.map (fun s => if s = sO then sN else s) }
          else e)⟩ : RegState)
      = mkReg ps (pre ++ (w, sN, pay) :: post)
    rw [map_rewrite_entries pre post w pay sO sN F3 F4]
    rfl
  · show ((pre ++ (w, sN, pay) :: post).map
        (fun r => (⟨r.1, [r.2.1], r.2.2⟩ : BinEntry))).map (fun e => e.payload)
      = ((pre ++ (w, sO, pay) :: post).map
        (fun r => (⟨r.1, [r.2.1], r.2.2⟩ : BinEntry))).map (fun e => e.payload)
    rw [List.map_map, List.map_map, List.map_append, List.map_cons,
      List.map_append, List.map_cons]
    rfl
  · have hko2 : sameSet (oldA.map (fun p => p.1))
        (mkReg ps (pre ++ (w, sN, pay) :: post)).params = true := hko
    unfold get_package_binary
    rw [← hsO, if_neg (by simp [hko2])]
    simp only [hwm2, hget_none]
  · refine ⟨⟨w, [sN], pay⟩, ?_, rfl⟩
    have hkn2 : sameSet (newA.map (fun p => p.1))
        (mkReg ps (pre ++ (w, sN, pay) :: post)).params = true := hkn
    unfold get_package_binary
    rw [← hsN, if_neg (by simp [hkn2])]
    simp only [hwm2, hget_new, hfind]

/-- Claim C7, witness: on an empty registry, reassigning the absent
`os -> a` fails `FileNotFoundError`; on a registry holding both `os -> a`
and `os -> b`, reassigning `os -> a` to the already-used `os -> b` fails
`FileExistsError`; and reassigning the binary stored under `os -> a`
(wrapper `w`, payload `[7]`) to the unused `os -> b` rewrites the marker,
leaves the payload in place, makes `get` on the old assignment fail
`FileNotFoundError`, and makes `get` on the new assignment return the same
payload. -/
theorem reassign_binary_correct_witness :
    reassign_binary ⟨[['o', 's']], []⟩ [(['o', 's'], ['a'])] [(['o', 's'], ['b'])]
      = Except.error PyErr.fileNotFound ∧
    reassign_binary
        ⟨[['o', 's']],
         [⟨['w'], [serialize_assignments [(['o', 's'], ['a'])]], none⟩,
          ⟨['v'], [serialize_assignments [(['o', 's'], ['b'])]], none⟩]⟩
        [(['o', 's'], ['a'])] [(['o', 's'], ['b'])]
      = Except.error PyErr.fileExists ∧
    reassign_binary
        (mkReg [['o', 's']]
          [(['w'], serialize_assignments [(['o', 's'], ['a'])], some [7])])
        [(['o', 's'], ['a'])] [(['o', 's'], ['b'])]
      = Except.ok
        (mkReg [['o', 's']]
          [(['w'], serialize_assignments [(['o', 's'], ['b'])], some [7])]) ∧
    get_package_binary
        (mkReg [['o', 's']]
          [(['w'], serialize_assignments [(['o', 's'], ['b'])], some [7])])
        [(['o', 's'], ['a'])]
      = Except.error PyErr.fileNotFound ∧
    (∃ e, get_package_binary
        (mkReg [['o', 's']]
          [(['w'], serialize_assignments [(['o', 's'], ['b'])], some [7])])
        [(['o', 's'], ['b'])]
      = Except.ok e ∧ e.payload = some [7]) := by
  have h := reassign_binary_correct [['o', 's']] [] []
    ['w'] (some [7]) [(['o', 's'], ['a'])] [(['o', 's'], ['b'])]
    (by decide) (by decide) (by decide) (by decide) (by decide) (by decide) (by decide)
  refine ⟨?_, ?_, h.2.2.1, h.2.2.2.2.1, h.2.2.2.2.2⟩
  · exact h.1 ⟨[['o', 's']], []⟩ [] rfl rfl
  · exact h.2.1
      ⟨[['o', 's']],
       [⟨['w'], [serialize_assignments [(['o', 's'], ['a'])]], none⟩,
        ⟨['v'], [serialize_assignments [(['o', 's'], ['b'])]], none⟩]⟩
      [(serialize_assignments [(['o', 's'], ['a'])], ['w']),
       (serialize_assignments [(['o', 's'], ['b'])], ['v'])]
      ['w'] (by decide) (by decide) (by decide)
